import Mathlib

/-!
Verification of the audio-visualizer core of harmonic-wave-dream against its
natural-language specification.

The numeric helpers of `src/utils/visualizerHelpers.ts` are embedded over a
model of JavaScript numbers (`JSVal`): finite values are exact rationals, and
the IEEE special values NaN, +Infinity and -Infinity are explicit
constructors, so that the `0/0` produced by `generateWaveform` on a short
buffer is represented faithfully.  The wave renderer of
`src/components/Visualizer.tsx` is embedded as the list of points its two
path loops trace, and the audio-graph setup of
`src/hooks/useAudioAnalyzer.tsx` as a state machine counting its calls into
the browser audio API.
-/

/-- A JavaScript number: an exact rational, or one of the special values
NaN, +Infinity, -Infinity. -/
inductive JSVal where
  | num (q : ℚ)
  | nan
  | inf
  | ninf
deriving DecidableEq, Repr

/-- JavaScript `+` on numbers. -/
def JSVal.add : JSVal → JSVal → JSVal
  | .num a, .num b => .num (a + b)
  | .nan, _ => .nan
  | _, .nan => .nan
  | .inf, .ninf => .nan
  | .ninf, .inf => .nan
  | .inf, _ => .inf
  | _, .inf => .inf
  | .ninf, _ => .ninf
  | _, .ninf => .ninf

/-- JavaScript `*` on numbers. -/
def JSVal.mul : JSVal → JSVal → JSVal
  | .num a, .num b => .num (a * b)
  | .nan, _ => .nan
  | _, .nan => .nan
  | .inf, .inf => .inf
  | .inf, .ninf => .ninf
  | .ninf, .inf => .ninf
  | .ninf, .ninf => .inf
  | .inf, .num b => if 0 < b then .inf else if b < 0 then .ninf else .nan
  | .num a, .inf => if 0 < a then .inf else if a < 0 then .ninf else .nan
  | .ninf, .num b => if 0 < b then .ninf else if b < 0 then .inf else .nan
  | .num a, .ninf => if 0 < a then .ninf else if a < 0 then .inf else .nan

/-- JavaScript `/` on numbers; in particular `0 / 0` is NaN and a nonzero
finite value divided by zero is a signed infinity. -/
def JSVal.div : JSVal → JSVal → JSVal
  | .num a, .num b =>
      if b ≠ 0 then .num (a / b)
      else if 0 < a then .inf else if a < 0 then .ninf else .nan
  | .nan, _ => .nan
  | _, .nan => .nan
  | .inf, .inf => .nan
  | .inf, .ninf => .nan
  | .ninf, .inf => .nan
  | .ninf, .ninf => .nan
  | .inf, .num b => if b < 0 then .ninf else .inf
  | .ninf, .num b => if b < 0 then .inf else .ninf
  | .num _, .inf => .num 0
  | .num _, .ninf => .num 0

/-- JavaScript `Math.min` on two numbers: NaN-propagating, otherwise the
usual order with -Infinity smallest. -/
def JSVal.mathMin : JSVal → JSVal → JSVal
  | .nan, _ => .nan
  | _, .nan => .nan
  | .ninf, _ => .ninf
  | _, .ninf => .ninf
  | .inf, v => v
  | v, .inf => v
  | .num a, .num b => .num (min a b)

/-- The value `v` is a finite number lying in the closed interval `[0,1]`. -/
def inUnitInterval (v : JSVal) : Prop :=
  ∃ q : ℚ, v = JSVal.num q ∧ 0 ≤ q ∧ q ≤ 1

/-- The byte sum of window `i` in `generateWaveform`
(`src/utils/visualizerHelpers.ts`): the inner loop adds
`frequencyData[i * sampleSize + j]` for `j < sampleSize`, skipping
out-of-range indices. -/
def windowSum (frequencyData : List ℕ) (sampleSize i : ℕ) : ℕ :=
  (List.range sampleSize).foldl
    (fun sum j =>
      if i * sampleSize + j < frequencyData.length then
        sum + frequencyData.getD (i * sampleSize + j) 0
      else sum)
    0

/-- The element pushed by iteration `i` of the outer loop of
`generateWaveform`: `Math.min(1, (sum / sampleSize / 255) * sensitivity)`. -/
def barValue (frequencyData : List ℕ) (sampleSize i : ℕ) (sensitivity : ℚ) : JSVal :=
  JSVal.mathMin (JSVal.num 1)
    (JSVal.mul
      (JSVal.div
        (JSVal.div (JSVal.num (windowSum frequencyData sampleSize i)) (JSVal.num sampleSize))
        (JSVal.num 255))
      (JSVal.num sensitivity))

/-- The `output` array built by `generateWaveform` before its final call to
`smoothArray`, with `sampleSize = Math.floor(frequencyData.length / numBars)`. -/
def generateWaveformRaw (frequencyData : List ℕ) (numBars : ℕ) (sensitivity : ℚ) : List JSVal :=
  (List.range numBars).map fun i =>
    barValue frequencyData (frequencyData.length / numBars) i sensitivity

/-- The body of the in-place smoothing loop of `smoothArray`:
`result[i] = result[i] * (1 - factor) + ((result[i-1] + result[i+1]) / 2) * factor`,
reading the current (possibly already updated) contents of `result`. -/
def smoothStep (factor : ℚ) (result : List JSVal) (i : ℕ) : List JSVal :=
  result.set i
    (JSVal.add
      (JSVal.mul (result.getD i JSVal.nan) (JSVal.num (1 - factor)))
      (JSVal.mul
        (JSVal.div
          (JSVal.add (result.getD (i - 1) JSVal.nan) (result.getD (i + 1) JSVal.nan))
          (JSVal.num 2))
        (JSVal.num factor)))

/-- `smoothArray` from `src/utils/visualizerHelpers.ts`: returns the input
for `factor <= 0`, collapses to the mean for `factor >= 1`, and otherwise
runs the in-place loop for `i` from `1` to `length - 2`. -/
def smoothArray (array : List JSVal) (factor : ℚ) : List JSVal :=
  if factor ≤ 0 then array
  else if 1 ≤ factor then
    List.replicate array.length
      (JSVal.div (array.foldl JSVal.add (JSVal.num 0)) (JSVal.num array.length))
  else
    ((List.range (array.length - 1)).drop 1).foldl (smoothStep factor) array

/-- `generateWaveform` from `src/utils/visualizerHelpers.ts`: all zeros on an
empty buffer, otherwise the windowed-mean array smoothed with factor `0.5`. -/
def generateWaveform (frequencyData : List ℕ) (numBars : ℕ) (sensitivity : ℚ) : List JSVal :=
  if frequencyData.length = 0 then List.replicate numBars (JSVal.num 0)
  else smoothArray (generateWaveformRaw frequencyData numBars sensitivity) (1 / 2)

/-- The body of the mirroring loop of `generateCircular`:
`waveform[waveform.length - 1 - i] = waveform[i]`. -/
def mirrorStep (waveform : List JSVal) (i : ℕ) : List JSVal :=
  waveform.set (waveform.length - 1 - i) (waveform.getD i JSVal.nan)

/-- `generateCircular` from `src/utils/visualizerHelpers.ts`: the
`generateWaveform` result with its second half overwritten by the mirror of
the first half (`for i < floor(length / 2)`). -/
def generateCircular (frequencyData : List ℕ) (numPoints : ℕ) (sensitivity : ℚ) : List JSVal :=
  (List.range ((generateWaveform frequencyData numPoints sensitivity).length / 2)).foldl
    mirrorStep (generateWaveform frequencyData numPoints sensitivity)

/-- A decimal digit as a character. -/
def digitChar (d : ℕ) : Char := Char.ofNat (48 + d)

/-- Decimal digits of `n`, most significant first, computed with fuel. -/
def natDigitsAux : ℕ → ℕ → List Char
  | 0, _ => []
  | fuel + 1, n =>
      if n < 10 then [digitChar n]
      else natDigitsAux fuel (n / 10) ++ [digitChar (n % 10)]

/-- JavaScript `Number.prototype.toString` on a nonnegative integer value. -/
def natToString (n : ℕ) : String := String.mk (natDigitsAux (n + 1) n)

/-- JavaScript `Number.prototype.toString` on an integer value. -/
def intToString (i : ℤ) : String :=
  if i < 0 then "-" ++ natToString i.natAbs else natToString i.toNat

/-- JavaScript `String.prototype.padStart` with a single-character pad. -/
def padStart (s : String) (n : ℕ) (c : Char) : String :=
  String.mk (List.replicate (n - s.length) c) ++ s

/-- Truncation of a rational toward zero, as JavaScript's implicit integer
division in the remainder operator. -/
def truncQ (q : ℚ) : ℤ := if 0 ≤ q then Rat.floor q else -Rat.floor (-q)

/-- JavaScript remainder `a % b` on finite numbers (sign of the dividend). -/
def jsMod (a b : ℚ) : ℚ := a - b * (truncQ (a / b) : ℚ)

/-- `formatTime` from `src/utils/visualizerHelpers.ts`: `"00:00"` for NaN or
non-finite input, otherwise zero-padded `mins:secs` with
`mins = Math.floor(seconds / 60)` and `secs = Math.floor(seconds % 60)`. -/
def formatTime (seconds : JSVal) : String :=
  match seconds with
  | JSVal.num q =>
      padStart (intToString (Rat.floor (q / 60))) 2 '0' ++ ":" ++
        padStart (intToString (Rat.floor (jsMod q 60))) 2 '0'
  | _ => "00:00"

/-- The points traced by the primary path loop of `drawWaveVisualizer`
(`src/components/Visualizer.tsx`): at each sample
`y = centerY + ((data[i] / 128) - 1) * centerY * sensitivity * volume`, with
`x` advancing by `sliceWidth`. -/
def wavePrimaryAux (centerY sensitivity volume sliceWidth : ℚ) :
    List ℕ → ℚ → List (ℚ × ℚ)
  | [], _ => []
  | d :: rest, x =>
      (x, centerY + ((d : ℚ) / 128 - 1) * centerY * sensitivity * volume) ::
        wavePrimaryAux centerY sensitivity volume sliceWidth rest (x + sliceWidth)

/-- The points traced by the mirrored path loop of `drawWaveVisualizer`:
`y = centerY - ((data[i] / 128) - 1) * centerY * sensitivity * volume`. -/
def waveMirrorAux (centerY sensitivity volume sliceWidth : ℚ) :
    List ℕ → ℚ → List (ℚ × ℚ)
  | [], _ => []
  | d :: rest, x =>
      (x, centerY - ((d : ℚ) / 128 - 1) * centerY * sensitivity * volume) ::
        waveMirrorAux centerY sensitivity volume sliceWidth rest (x + sliceWidth)

/-- `drawWaveVisualizer` from `src/components/Visualizer.tsx`, embedded as the
pair of point lists its two stroked paths visit; it returns without drawing
when the time buffer is empty, and consumes the buffer raw (no shaping
pass). -/
def drawWaveVisualizer (data : List ℕ) (width height sensitivity volume : ℚ) :
    List (ℚ × ℚ) × List (ℚ × ℚ) :=
  if data.length = 0 then ([], [])
  else
    (wavePrimaryAux (height / 2) sensitivity volume (width / (data.length : ℚ)) data 0,
     waveMirrorAux (height / 2) sensitivity volume (width / (data.length : ℚ)) data 0)

/-- State of the audio-graph setup around one media element: whether the
element is already wrapped by a source node, how many `AudioContext`s have
been constructed, how many times `createMediaElementSource` has been invoked,
and whether an analyser is wired up. -/
structure AudioSetupState where
  elementHasSource : Bool
  contextsCreated : ℕ
  sourceNodeCalls : ℕ
  analyserReady : Bool
deriving DecidableEq, Repr

/-- The graph-setup error taxonomy of the spec (§7). -/
inductive AudioError where
  | GraphAlreadyConnected
deriving DecidableEq, Repr

/-- Modelled from the spec: the browser API `createMediaElementSource`, which
is outside this repository; per §3/§7 a media element may be wrapped by at
most one source node, and attaching a second one makes the audio API throw
(`GraphAlreadyConnected`).  The invocation is counted even when it throws. -/
def createMediaElementSource (st : AudioSetupState) :
    Except AudioError Unit × AudioSetupState :=
  if st.elementHasSource then
    (Except.error AudioError.GraphAlreadyConnected,
     ⟨st.elementHasSource, st.contextsCreated, st.sourceNodeCalls + 1, st.analyserReady⟩)
  else
    (Except.ok (),
     ⟨true, st.contextsCreated, st.sourceNodeCalls + 1, st.analyserReady⟩)

/-- `initAudioAnalyzer` from `src/hooks/useAudioAnalyzer.tsx`: constructs a
new `AudioContext`, then unconditionally calls `createMediaElementSource` on
the media element and wires the analyser — there is no already-initialized
check before the API call. -/
def initAudioAnalyzer (st : AudioSetupState) :
    Except AudioError Unit × AudioSetupState :=
  match createMediaElementSource
      ⟨st.elementHasSource, st.contextsCreated + 1, st.sourceNodeCalls, st.analyserReady⟩ with
  | (Except.error e, st2) => (Except.error e, st2)
  | (Except.ok _, st2) =>
      (Except.ok (), ⟨st2.elementHasSource, st2.contextsCreated, st2.sourceNodeCalls, true⟩)

/-- A fresh setup state: no source node, no contexts, nothing wired. -/
def freshAudioState : AudioSetupState := ⟨false, 0, 0, false⟩

/-- Reference recurrence for the in-place smoothing pass of `smoothArray` on a
finite-valued array: element `0` is unchanged, and element `i + 1`, when
interior, combines the original value with the already-updated left neighbor
and the original right neighbor. -/
def smoothSeq (v : List ℚ) (factor : ℚ) : ℕ → ℚ
  | 0 => v.getD 0 0
  | i + 1 =>
      if i + 3 ≤ v.length then
        v.getD (i + 1) 0 * (1 - factor) +
          ((smoothSeq v factor i + v.getD (i + 2) 0) / 2) * factor
      else v.getD (i + 1) 0

/-- Modelled from the spec (§4.2 `smooth`): the single-pass 3-tap moving
average over the real numbers, reading both neighbors from the original
array and leaving the endpoints unmodified. -/
noncomputable def smoothSpec (v : List ℝ) (f : ℝ) : List ℝ :=
  if f ≤ 0 then v
  else if 1 ≤ f then List.replicate v.length (v.sum / v.length)
  else
    (List.range v.length).map fun i =>
      if 1 ≤ i ∧ i + 1 < v.length then
        v.getD i 0 * (1 - f) + ((v.getD (i - 1) 0 + v.getD (i + 1) 0) / 2) * f
      else v.getD i 0

/-- Modelled from the spec (§4.2 `shapeCircular`): the angular ripple position
weight `1 + 0.3 * sin(3 * angle)` with `angle = 2 * pi * i / n`. -/
noncomputable def rippleWeight (i n : ℕ) : ℝ :=
  1 + (3 / 10) * Real.sin (3 * (2 * Real.pi * i / n))

/-- Modelled from the spec (§4.2 `shapeCircular`): windowed means normalized
by 255, scaled by sensitivity, weighted by the angular ripple, clamped to 1. -/
noncomputable def shapeCircularSpecRaw (freq : List ℕ) (n : ℕ) (s : ℝ) : List ℝ :=
  (List.range n).map fun i =>
    min 1 ((windowSum freq (freq.length / n) i : ℝ) / ((freq.length / n : ℕ) : ℝ) / 255
      * s * rippleWeight i n)

/-- Modelled from the spec (§4.2 `shapeCircular`): the ripple-weighted
windowed means passed through the smoothing filter with factor `0.4`. -/
noncomputable def shapeCircularSpec (freq : List ℕ) (n : ℕ) (s : ℝ) : List ℝ :=
  smoothSpec (shapeCircularSpecRaw freq n s) (2 / 5)

/-! ### Basic lemmas about the JavaScript number model -/

theorem JSVal.add_num_num (a b : ℚ) :
    JSVal.add (JSVal.num a) (JSVal.num b) = JSVal.num (a + b) := rfl

theorem JSVal.mul_num_num (a b : ℚ) :
    JSVal.mul (JSVal.num a) (JSVal.num b) = JSVal.num (a * b) := rfl

theorem JSVal.div_num_num (a b : ℚ) (hb : b ≠ 0) :
    JSVal.div (JSVal.num a) (JSVal.num b) = JSVal.num (a / b) := by
  simp [JSVal.div, hb]

theorem JSVal.mathMin_num_num (a b : ℚ) :
    JSVal.mathMin (JSVal.num a) (JSVal.num b) = JSVal.num (min a b) := rfl

theorem JSVal.nan_add (v : JSVal) : JSVal.add JSVal.nan v = JSVal.nan := by cases v <;> rfl

theorem JSVal.add_nan (v : JSVal) : JSVal.add v JSVal.nan = JSVal.nan := by cases v <;> rfl

theorem JSVal.nan_mul (v : JSVal) : JSVal.mul JSVal.nan v = JSVal.nan := by cases v <;> rfl

theorem JSVal.mul_nan (v : JSVal) : JSVal.mul v JSVal.nan = JSVal.nan := by cases v <;> rfl

theorem JSVal.nan_div (v : JSVal) : JSVal.div JSVal.nan v = JSVal.nan := by cases v <;> rfl

theorem JSVal.div_nan (v : JSVal) : JSVal.div v JSVal.nan = JSVal.nan := by cases v <;> rfl

theorem JSVal.mathMin_nan (v : JSVal) : JSVal.mathMin v JSVal.nan = JSVal.nan := by
  cases v <;> rfl

theorem JSVal.nan_mathMin (v : JSVal) : JSVal.mathMin JSVal.nan v = JSVal.nan := by
  cases v <;> rfl

/-! ### List access helpers -/

theorem getD_set_self {α : Type} (l : List α) (i : ℕ) (a d : α) (h : i < l.length) :
    (l.set i a).getD i d = a := by
  rw [List.getD_eq_getElem _ _ (by simpa using h)]
  exact List.getElem_set_self (by simpa using h)

theorem getD_set_ne {α : Type} (l : List α) (i j : ℕ) (a d : α) (h : i ≠ j) :
    (l.set i a).getD j d = l.getD j d := by
  by_cases hj : j < l.length
  · rw [List.getD_eq_getElem _ _ (by simpa using hj), List.getD_eq_getElem _ _ hj]
    exact List.getElem_set_ne h _
  · rw [List.getD_eq_default _ _ (by simp; omega), List.getD_eq_default _ _ (by omega)]

theorem getD_map_num (v : List ℚ) (j : ℕ) (h : j < v.length) :
    (v.map JSVal.num).getD j JSVal.nan = JSVal.num (v.getD j 0) := by
  rw [List.getD_eq_getElem _ _ (by simpa using h), List.getElem_map,
    List.getD_eq_getElem _ _ h]

/-! ### Length preservation -/

theorem smoothStep_length (f : ℚ) (l : List JSVal) (i : ℕ) :
    (smoothStep f l i).length = l.length := by
  simp [smoothStep]

theorem foldl_smoothStep_length (f : ℚ) (idxs : List ℕ) (l : List JSVal) :
    (idxs.foldl (smoothStep f) l).length = l.length := by
  induction idxs generalizing l with
  | nil => rfl
  | cons a as ih => rw [List.foldl_cons, ih, smoothStep_length]

theorem smoothArray_length (l : List JSVal) (f : ℚ) :
    (smoothArray l f).length = l.length := by
  unfold smoothArray
  split
  · rfl
  split
  · simp
  · exact foldl_smoothStep_length f _ l

theorem mirrorStep_length (l : List JSVal) (i : ℕ) :
    (mirrorStep l i).length = l.length := by
  simp [mirrorStep]

theorem foldl_mirrorStep_length (idxs : List ℕ) (l : List JSVal) :
    (idxs.foldl mirrorStep l).length = l.length := by
  induction idxs generalizing l with
  | nil => rfl
  | cons a as ih => rw [List.foldl_cons, ih, mirrorStep_length]

theorem generateWaveformRaw_length (freq : List ℕ) (n : ℕ) (s : ℚ) :
    (generateWaveformRaw freq n s).length = n := by
  simp [generateWaveformRaw]

theorem generateWaveform_length (freq : List ℕ) (n : ℕ) (s : ℚ) :
    (generateWaveform freq n s).length = n := by
  unfold generateWaveform
  split
  · simp
  · rw [smoothArray_length, generateWaveformRaw_length]

theorem generateCircular_length (freq : List ℕ) (n : ℕ) (s : ℚ) :
    (generateCircular freq n s).length = n := by
  unfold generateCircular
  rw [foldl_mirrorStep_length, generateWaveform_length]

/-! ### The in-place smoothing pass, characterized -/

theorem smoothSeq_zero (v : List ℚ) (f : ℚ) : smoothSeq v f 0 = v.getD 0 0 := rfl

theorem smoothSeq_succ (v : List ℚ) (f : ℚ) (i : ℕ) :
    smoothSeq v f (i + 1) =
      if i + 3 ≤ v.length then
        v.getD (i + 1) 0 * (1 - f) + ((smoothSeq v f i + v.getD (i + 2) 0) / 2) * f
      else v.getD (i + 1) 0 := by
  rw [smoothSeq]

/-- After the in-place loop has processed indices `1 .. k` (with
`k + 2 ≤ length` so every processed index is interior), element `j` holds the
`smoothSeq` value when `j ≤ k` and the original value otherwise. -/
theorem smooth_foldl_processed (v : List ℚ) (f : ℚ) (k : ℕ) (hk : k + 2 ≤ v.length) :
    ∀ j, j < v.length →
      (((List.range k).map (fun t => t + 1)).foldl (smoothStep f) (v.map JSVal.num)).getD
          j JSVal.nan
        = JSVal.num (if j ≤ k then smoothSeq v f j else v.getD j 0) := by
  induction k with
  | zero =>
      intro j hj
      simp only [List.range_zero, List.map_nil, List.foldl_nil]
      rw [getD_map_num v j hj]
      by_cases h0 : j = 0
      · subst h0
        rw [if_pos (Nat.le_refl 0), smoothSeq_zero]
      · rw [if_neg (by omega)]
  | succ k ih =>
      intro j hj
      have hk' : k + 2 ≤ v.length := by omega
      have hw := ih hk'
      have hwl :
          (((List.range k).map (fun t => t + 1)).foldl (smoothStep f)
              (v.map JSVal.num)).length = v.length := by
        rw [foldl_smoothStep_length, List.length_map]
      rw [List.range_succ, List.map_append, List.foldl_append]
      simp only [List.map_cons, List.map_nil, List.foldl_cons, List.foldl_nil]
      set w := ((List.range k).map (fun t => t + 1)).foldl (smoothStep f) (v.map JSVal.num)
        with hwdef
      have hget_k1 : w.getD (k + 1) JSVal.nan = JSVal.num (v.getD (k + 1) 0) := by
        rw [hw (k + 1) (by omega), if_neg (by omega)]
      have hget_k : w.getD k JSVal.nan = JSVal.num (smoothSeq v f k) := by
        rw [hw k (by omega), if_pos (Nat.le_refl k)]
      have hget_k2 : w.getD (k + 2) JSVal.nan = JSVal.num (v.getD (k + 2) 0) := by
        rw [hw (k + 2) (by omega), if_neg (by omega)]
      have hstep : smoothStep f w (k + 1) =
          w.set (k + 1) (JSVal.num (smoothSeq v f (k + 1))) := by
        rw [smoothStep, Nat.add_sub_cancel, hget_k1, hget_k, hget_k2,
          JSVal.add_num_num, JSVal.div_num_num _ _ (by norm_num),
          JSVal.mul_num_num, JSVal.mul_num_num, JSVal.add_num_num,
          smoothSeq_succ, if_pos (by omega)]
      rw [hstep]
      by_cases hjk : j = k + 1
      · subst hjk
        rw [getD_set_self _ _ _ _ (by omega), if_pos (Nat.le_refl _)]
      · rw [getD_set_ne _ _ _ _ _ (fun h => hjk h.symm), hw j hj]
        by_cases hle : j ≤ k
        · rw [if_pos hle, if_pos (by omega)]
        · rw [if_neg hle, if_neg (by omega)]

/-- `smoothArray` with `0 < factor < 1` on a finite-valued array computes the
`smoothSeq` recurrence at every index. -/
theorem smoothArray_map_num (v : List ℚ) (f : ℚ) (h0 : 0 < f) (h1 : f < 1) :
    ∀ j, j < v.length →
      (smoothArray (v.map JSVal.num) f).getD j JSVal.nan = JSVal.num (smoothSeq v f j) := by
  intro j hj
  unfold smoothArray
  rw [if_neg (by linarith), if_neg (by linarith)]
  rcases hlen : v.length with _ | len1
  · omega
  rcases hlen2 : len1 with _ | n
  · -- length 1: the loop body is empty
    have : (v.map JSVal.num).length - 1 = 0 := by simp [hlen, hlen2]
    rw [this]
    simp only [List.range_zero, List.drop_nil, List.foldl_nil]
    have hj0 : j = 0 := by omega
    subst hj0
    rw [getD_map_num v 0 hj, smoothSeq_zero]
  · -- length n + 2: the loop runs over indices 1 .. n
    have hl : (v.map JSVal.num).length - 1 = n + 1 := by
      simp [hlen, hlen2]
    rw [hl, List.range_succ_eq_map, List.drop_succ_cons, List.drop_zero]
    have hk : n + 2 ≤ v.length := by omega
    rw [smooth_foldl_processed v f n hk j hj]
    by_cases hle : j ≤ n
    · rw [if_pos hle]
    · have hj1 : j = n + 1 := by omega
      subst hj1
      rw [if_neg hle, smoothSeq_succ, if_neg (by omega)]

/-! ### The mirroring pass of `generateCircular`, characterized -/

/-- After the mirroring loop has processed indices `0 .. k - 1` (with
`k ≤ length / 2`), element `j` holds the mirrored first-half value when
`length - k ≤ j` and the original value otherwise. -/
theorem mirror_foldl_processed (w : List JSVal) (k : ℕ) (hk : k ≤ w.length / 2) :
    ∀ j, j < w.length →
      ((List.range k).foldl mirrorStep w).getD j JSVal.nan
        = if w.length - k ≤ j then w.getD (w.length - 1 - j) JSVal.nan
          else w.getD j JSVal.nan := by
  induction k with
  | zero =>
      intro j hj
      simp only [List.range_zero, List.foldl_nil]
      rw [if_neg (by omega)]
  | succ k ih =>
      intro j hj
      have hk' : k ≤ w.length / 2 := by omega
      have hout := ih hk'
      have houtl : ((List.range k).foldl mirrorStep w).length = w.length :=
        foldl_mirrorStep_length _ w
      rw [List.range_succ, List.foldl_append, List.foldl_cons, List.foldl_nil]
      set u := (List.range k).foldl mirrorStep w with hudef
      have hread : u.getD k JSVal.nan = w.getD k JSVal.nan := by
        rw [hout k (by omega), if_neg (by omega)]
      have hstep : mirrorStep u k = u.set (w.length - 1 - k) (w.getD k JSVal.nan) := by
        rw [mirrorStep, houtl, hread]
      rw [hstep]
      by_cases hjk : j = w.length - 1 - k
      · subst hjk
        rw [getD_set_self _ _ _ _ (by omega), if_pos (by omega)]
        congr 1
        omega
      · rw [getD_set_ne _ _ _ _ _ (fun h => hjk h.symm), hout j hj]
        by_cases hge : w.length - k ≤ j
        · rw [if_pos hge, if_pos (by omega)]
        · rw [if_neg hge, if_neg (by omega)]

/-- Element `j` of `generateCircular` is element `min j (n - 1 - j)` of the
underlying `generateWaveform` result. -/
theorem generateCircular_getD (freq : List ℕ) (n : ℕ) (s : ℚ) (j : ℕ) (hj : j < n) :
    (generateCircular freq n s).getD j JSVal.nan
      = (generateWaveform freq n s).getD (min j (n - 1 - j)) JSVal.nan := by
  have hlen := generateWaveform_length freq n s
  unfold generateCircular
  rw [hlen, mirror_foldl_processed (generateWaveform freq n s) (n / 2) (by omega) j (by omega)]
  by_cases hge : (generateWaveform freq n s).length - n / 2 ≤ j
  · rw [if_pos hge]
    congr 1
    omega
  · rw [if_neg hge]
    congr 1
    omega

/-! ### The loop body of `generateWaveform` -/

theorem barValue_num (freq : List ℕ) (ss i : ℕ) (s : ℚ) (hss : ss ≠ 0) :
    barValue freq ss i s
      = JSVal.num (min 1 ((windowSum freq ss i : ℚ) / (ss : ℚ) / 255 * s)) := by
  rw [barValue, JSVal.div_num_num _ _ (by exact_mod_cast hss),
    JSVal.div_num_num _ _ (by norm_num), JSVal.mul_num_num, JSVal.mathMin_num_num]

theorem barValue_nan (freq : List ℕ) (i : ℕ) (s : ℚ) :
    barValue freq 0 i s = JSVal.nan := by
  have hws : windowSum freq 0 i = 0 := rfl
  rw [barValue, hws]
  norm_num [JSVal.div, JSVal.nan_div, JSVal.nan_mul, JSVal.mathMin_nan]

theorem getD_of_all_nan (l : List JSVal) (h : ∀ x ∈ l, x = JSVal.nan) (i : ℕ) :
    l.getD i JSVal.nan = JSVal.nan := by
  by_cases hi : i < l.length
  · rw [List.getD_eq_getElem _ _ hi]
    exact h _ (List.getElem_mem _)
  · exact List.getD_eq_default _ _ (by omega)

theorem smoothStep_all_nan (f : ℚ) (l : List JSVal) (i : ℕ)
    (h : ∀ x ∈ l, x = JSVal.nan) : ∀ x ∈ smoothStep f l i, x = JSVal.nan := by
  intro x hx
  rcases List.mem_or_eq_of_mem_set hx with hx' | rfl
  · exact h x hx'
  · have g1 := getD_of_all_nan l h i
    have g2 := getD_of_all_nan l h (i - 1)
    have g3 := getD_of_all_nan l h (i + 1)
    rw [g1, g2, g3, JSVal.nan_mul, JSVal.nan_add]

theorem foldl_smoothStep_all_nan (f : ℚ) (idxs : List ℕ) (l : List JSVal)
    (h : ∀ x ∈ l, x = JSVal.nan) : ∀ x ∈ idxs.foldl (smoothStep f) l, x = JSVal.nan := by
  induction idxs generalizing l with
  | nil => exact h
  | cons a as ih =>
      intro x hx
      rw [List.foldl_cons] at hx
      exact ih (smoothStep f l a) (smoothStep_all_nan f l a h) x hx

/-! ### Range bounds -/

theorem getD_unit (v : List ℚ) (h : ∀ x ∈ v, 0 ≤ x ∧ x ≤ 1) (j : ℕ) :
    0 ≤ v.getD j 0 ∧ v.getD j 0 ≤ 1 := by
  by_cases hj : j < v.length
  · rw [List.getD_eq_getElem _ _ hj]
    exact h _ (List.getElem_mem _)
  · rw [List.getD_eq_default _ _ (by omega)]
    norm_num

theorem smoothSeq_unit (v : List ℚ) (f : ℚ) (hf0 : 0 ≤ f) (hf1 : f ≤ 1)
    (h : ∀ x ∈ v, 0 ≤ x ∧ x ≤ 1) : ∀ i, 0 ≤ smoothSeq v f i ∧ smoothSeq v f i ≤ 1 := by
  intro i
  induction i with
  | zero =>
      rw [smoothSeq_zero]
      exact getD_unit v h 0
  | succ i ih =>
      rw [smoothSeq_succ]
      split
      · obtain ⟨h1, h2⟩ := getD_unit v h (i + 1)
        obtain ⟨h3, h4⟩ := getD_unit v h (i + 2)
        obtain ⟨h5, h6⟩ := ih
        constructor <;> nlinarith
      · exact getD_unit v h (i + 1)

theorem lerp_strict_between (a b f : ℚ) (h0 : 0 < f) (h1 : f < 1) (hne : a ≠ b) :
    min a b < a * (1 - f) + b * f ∧ a * (1 - f) + b * f < max a b := by
  rcases lt_or_gt_of_ne hne with h | h
  · rw [min_eq_left (le_of_lt h), max_eq_right (le_of_lt h)]
    constructor <;> nlinarith
  · rw [min_eq_right (le_of_lt h), max_eq_left (le_of_lt h)]
    constructor <;> nlinarith

/-! ### The wave-mode traces -/

theorem wavePrimaryAux_getD (centerY s vol sw : ℚ) (data : List ℕ) :
    ∀ i, i < data.length → ∀ x0 : ℚ,
      (wavePrimaryAux centerY s vol sw data x0).getD i (0, 0)
        = (x0 + i * sw,
           centerY + ((data.getD i 0 : ℚ) / 128 - 1) * centerY * s * vol) := by
  induction data with
  | nil =>
      intro i hi
      simp at hi
  | cons d rest ih =>
      intro i hi x0
      cases i with
      | zero =>
          rw [wavePrimaryAux]
          simp
      | succ i =>
          rw [wavePrimaryAux, List.getD_cons_succ, ih i (by simpa using hi) (x0 + sw),
            List.getD_cons_succ]
          simp only [Prod.mk.injEq]
          refine ⟨?_, trivial⟩
          push_cast
          ring

theorem waveMirrorAux_getD (centerY s vol sw : ℚ) (data : List ℕ) :
    ∀ i, i < data.length → ∀ x0 : ℚ,
      (waveMirrorAux centerY s vol sw data x0).getD i (0, 0)
        = (x0 + i * sw,
           centerY - ((data.getD i 0 : ℚ) / 128 - 1) * centerY * s * vol) := by
  induction data with
  | nil =>
      intro i hi
      simp at hi
  | cons d rest ih =>
      intro i hi x0
      cases i with
      | zero =>
          rw [waveMirrorAux]
          simp
      | succ i =>
          rw [waveMirrorAux, List.getD_cons_succ, ih i (by simpa using hi) (x0 + sw),
            List.getD_cons_succ]
          simp only [Prod.mk.injEq]
          refine ⟨?_, trivial⟩
          push_cast
          ring

/-- When the window size is nonzero, the pre-smoothing array is the
`JSVal.num` image of a rational array of clamped, scaled window means. -/
theorem generateWaveformRaw_eq_map (freq : List ℕ) (n : ℕ) (s : ℚ)
    (hss : freq.length / n ≠ 0) :
    generateWaveformRaw freq n s
      = ((List.range n).map fun i =>
          min 1 ((windowSum freq (freq.length / n) i : ℚ)
            / ((freq.length / n : ℕ) : ℚ) / 255 * s)).map JSVal.num := by
  rw [generateWaveformRaw, List.map_map]
  exact List.map_congr_left fun i _ => barValue_num freq _ i s hss

/-! ### Claim C1 -/

/-- C1 as stated fails: on the non-empty one-byte buffer `[7]` with `n = 3`
and `sensitivity = 2`, element 0 of the bar shaper's output is NaN, not a
value in `[0,1]`. -/
theorem generateWaveform_unit_range_fails_on_short_buffer :
    (generateWaveform [7] 3 2).getD 0 JSVal.nan = JSVal.nan
      ∧ ¬ inUnitInterval ((generateWaveform [7] 3 2).getD 0 JSVal.nan) := by
  have h : (generateWaveform [7] 3 2).getD 0 JSVal.nan = JSVal.nan := by
    with_unfolding_all decide
  refine ⟨h, ?_⟩
  rw [h]
  rintro ⟨q, hq, _⟩
  exact JSVal.noConfusion hq

/-- C1 (amended): with the additional precondition that the buffer is empty
or holds at least `n` samples, every element of `generateWaveform` and of
`generateCircular` is a finite value in `[0,1]`, for bytes in `[0,255]`,
`n ≥ 1` and `sensitivity ≥ 0`. -/
theorem shaped_output_in_unit_interval (freq : List ℕ) (n : ℕ) (s : ℚ)
    (hbytes : ∀ b ∈ freq, b ≤ 255) (hn : 1 ≤ n) (hs : 0 ≤ s)
    (hpre : freq.length = 0 ∨ n ≤ freq.length) :
    (∀ x ∈ generateWaveform freq n s, inUnitInterval x)
      ∧ ∀ x ∈ generateCircular freq n s, inUnitInterval x := by
  have hw : ∀ x ∈ generateWaveform freq n s, inUnitInterval x := by
    rcases hpre with hempty | hge
    · rw [generateWaveform, if_pos hempty]
      intro x hx
      rw [List.eq_of_mem_replicate hx]
      exact ⟨0, rfl, le_refl 0, by norm_num⟩
    · have hss : freq.length / n ≠ 0 := by
        have := (Nat.one_le_div_iff (show 0 < n by omega)).mpr hge
        omega
      have hne : ¬ freq.length = 0 := by omega
      rw [generateWaveform, if_neg hne, generateWaveformRaw_eq_map freq n s hss]
      set v := (List.range n).map fun i =>
        min 1 ((windowSum freq (freq.length / n) i : ℚ)
          / ((freq.length / n : ℕ) : ℚ) / 255 * s) with hv
      have hvunit : ∀ x ∈ v, 0 ≤ x ∧ x ≤ 1 := by
        intro x hx
        rw [hv] at hx
        rcases List.mem_map.mp hx with ⟨i, _, rfl⟩
        refine ⟨le_min (by norm_num) ?_, min_le_left _ _⟩
        have h1 : (0 : ℚ) ≤ (windowSum freq (freq.length / n) i : ℚ) := Nat.cast_nonneg _
        have h2 : (0 : ℚ) ≤ ((freq.length / n : ℕ) : ℚ) := Nat.cast_nonneg _
        exact mul_nonneg (div_nonneg (div_nonneg h1 h2) (by norm_num)) hs
      intro x hx
      rcases List.mem_iff_getElem.mp hx with ⟨j, hj, rfl⟩
      have hjv : j < v.length := by
        rw [smoothArray_length, List.length_map] at hj
        exact hj
      rw [← List.getD_eq_getElem _ JSVal.nan hj,
        smoothArray_map_num v (1 / 2) (by norm_num) (by norm_num) j hjv]
      obtain ⟨hl, hr⟩ :=
        smoothSeq_unit v (1 / 2) (by norm_num) (by norm_num) hvunit j
      exact ⟨smoothSeq v (1 / 2) j, rfl, hl, hr⟩
  refine ⟨hw, ?_⟩
  intro x hx
  rcases List.mem_iff_getElem.mp hx with ⟨j, hj, rfl⟩
  have hjn : j < n := by
    rw [generateCircular_length] at hj
    exact hj
  rw [← List.getD_eq_getElem _ JSVal.nan hj, generateCircular_getD freq n s j hjn]
  have hwl : (generateWaveform freq n s).length = n := generateWaveform_length freq n s
  rw [List.getD_eq_getElem _ _ (by omega)]
  exact hw _ (List.getElem_mem _)

/-- Witness for C1 (amended) at `freq = [255]`, `n = 1`, `s = 1`. -/
theorem shaped_output_in_unit_interval_witness :
    inUnitInterval ((generateWaveform [255] 1 1).getD 0 JSVal.nan)
      ∧ inUnitInterval ((generateCircular [255] 1 1).getD 0 JSVal.nan) := by
  have h := shaped_output_in_unit_interval [255] 1 1 (by decide) (by decide)
    (by norm_num) (Or.inr (by decide))
  exact ⟨h.1 _ (by with_unfolding_all decide), h.2 _ (by with_unfolding_all decide)⟩

/-! ### Claim C2 -/

/-- C2 as stated fails: the pre-smoothing element 0 on
`[255,255,255,255]`, `n = 2`, `s = 1` is `1`, not the position-weighted
`0.7` the claim predicts. -/
theorem generateWaveformRaw_no_position_weight :
    (generateWaveformRaw [255, 255, 255, 255] 2 1).getD 0 JSVal.nan = JSVal.num 1
      ∧ JSVal.num 1 ≠ JSVal.num (7 / 10) := by
  constructor <;> with_unfolding_all decide

/-- C2 (amended): before smoothing, element `i` of the bar shaper is the
window's mean magnitude divided by 255, multiplied by `sensitivity` and
clamped to 1 — with no position weight — and on `[255,255,255,255]` with
`n = 2`, `s = 1` the pre-smoothing array is `[1, 1]`, returned unchanged
after the 0.5-factor smoothing (length 2, no interior elements). -/
theorem generateWaveformRaw_windowed_mean (freq : List ℕ) (n : ℕ) (s : ℚ)
    (hn : 1 ≤ n) (hge : n ≤ freq.length) :
    (∀ i, i < n →
        (generateWaveformRaw freq n s).getD i JSVal.nan
          = JSVal.num (min 1 ((windowSum freq (freq.length / n) i : ℚ)
              / ((freq.length / n : ℕ) : ℚ) / 255 * s)))
      ∧ generateWaveformRaw [255, 255, 255, 255] 2 1 = [JSVal.num 1, JSVal.num 1]
      ∧ generateWaveform [255, 255, 255, 255] 2 1 = [JSVal.num 1, JSVal.num 1] := by
  refine ⟨?_, by with_unfolding_all decide, by with_unfolding_all decide⟩
  intro i hi
  have hss : freq.length / n ≠ 0 := by
    have := (Nat.one_le_div_iff (show 0 < n by omega)).mpr hge
    omega
  rw [generateWaveformRaw, List.getD_eq_getElem _ _ (by simpa using hi),
    List.getElem_map, List.getElem_range]
  exact barValue_num freq _ i s hss

/-- Witness for C2 (amended) at `freq = [255,255,255,255]`, `n = 2`,
`s = 1`, `i = 0`. -/
theorem generateWaveformRaw_windowed_mean_witness :
    (generateWaveformRaw [255, 255, 255, 255] 2 1).getD 0 JSVal.nan
      = JSVal.num (min 1
          ((windowSum [255, 255, 255, 255] (([255, 255, 255, 255] : List ℕ).length / 2) 0 : ℚ)
            / ((([255, 255, 255, 255] : List ℕ).length / 2 : ℕ) : ℚ) / 255 * 1)) :=
  (generateWaveformRaw_windowed_mean [255, 255, 255, 255] 2 1 (by decide) (by decide)).1 0
    (by decide)

/-! ### Claim C3 -/

/-- C3 as stated fails: smoothing `[0, 1, 0, 1]` with factor `1/2` yields
`3/8` at index 2, not the `1/2` predicted by the original-neighbor formula
`v[2]*(1-f) + ((v[1]+v[3])/2)*f` — the loop has already overwritten
`v[1]`. -/
theorem smoothArray_uses_updated_left_neighbor :
    smoothArray [JSVal.num 0, JSVal.num 1, JSVal.num 0, JSVal.num 1] (1 / 2)
        = [JSVal.num 0, JSVal.num (1 / 2), JSVal.num (3 / 8), JSVal.num 1]
      ∧ JSVal.num (3 / 8) ≠ JSVal.num (0 * (1 - 1 / 2) + ((1 + 1) / 2) * (1 / 2)) := by
  constructor <;> with_unfolding_all decide

/-- C3 (amended): for `0 < factor < 1` and length ≥ 3, `smoothArray` leaves
the first and last elements unchanged, and interior element `i` equals
`v[i]*(1-f) + ((r[i-1] + v[i+1])/2)*f` where `r[i-1]` is the
already-smoothed left neighbor (the in-place left-to-right pass) and
`v[i+1]` the original right neighbor; whenever `v[i]` differs from that
neighbor average, the result lies strictly between them. -/
theorem smoothArray_endpoints_and_interior (v : List ℚ) (f : ℚ)
    (h0 : 0 < f) (h1 : f < 1) (h3 : 3 ≤ v.length) :
    ((smoothArray (v.map JSVal.num) f).getD 0 JSVal.nan = JSVal.num (v.getD 0 0)
        ∧ (smoothArray (v.map JSVal.num) f).getD (v.length - 1) JSVal.nan
            = JSVal.num (v.getD (v.length - 1) 0))
      ∧ (∀ i, 1 ≤ i → i + 1 < v.length →
          (smoothArray (v.map JSVal.num) f).getD i JSVal.nan
            = JSVal.num (v.getD i 0 * (1 - f)
                + ((smoothSeq v f (i - 1) + v.getD (i + 1) 0) / 2) * f))
      ∧ (∀ i, 1 ≤ i → i + 1 < v.length →
          v.getD i 0 ≠ (smoothSeq v f (i - 1) + v.getD (i + 1) 0) / 2 →
          min (v.getD i 0) ((smoothSeq v f (i - 1) + v.getD (i + 1) 0) / 2)
              < v.getD i 0 * (1 - f) + ((smoothSeq v f (i - 1) + v.getD (i + 1) 0) / 2) * f
            ∧ v.getD i 0 * (1 - f) + ((smoothSeq v f (i - 1) + v.getD (i + 1) 0) / 2) * f
              < max (v.getD i 0) ((smoothSeq v f (i - 1) + v.getD (i + 1) 0) / 2)) := by
  refine ⟨⟨?_, ?_⟩, ?_, ?_⟩
  · rw [smoothArray_map_num v f h0 h1 0 (by omega), smoothSeq_zero]
  · rw [smoothArray_map_num v f h0 h1 (v.length - 1) (by omega)]
    congr 1
    obtain ⟨m, hm⟩ : ∃ m, v.length - 1 = m + 1 := ⟨v.length - 2, by omega⟩
    rw [hm, smoothSeq_succ, if_neg (by omega)]
  · intro i hi1 hi2
    rw [smoothArray_map_num v f h0 h1 i (by omega)]
    congr 1
    obtain ⟨m, rfl⟩ : ∃ m, i = m + 1 := ⟨i - 1, by omega⟩
    rw [smoothSeq_succ, if_pos (by omega), Nat.add_sub_cancel]
  · intro i hi1 hi2 hne
    exact lerp_strict_between (v.getD i 0)
      ((smoothSeq v f (i - 1) + v.getD (i + 1) 0) / 2) f h0 h1 hne

/-- Witness for C3 (amended) at `v = [0,1,0,1]`, `f = 1/2`, `i = 2`. -/
theorem smoothArray_endpoints_and_interior_witness :
    (smoothArray (([0, 1, 0, 1] : List ℚ).map JSVal.num) (1 / 2)).getD 2 JSVal.nan
      = JSVal.num (([0, 1, 0, 1] : List ℚ).getD 2 0 * (1 - 1 / 2)
          + ((smoothSeq [0, 1, 0, 1] (1 / 2) (2 - 1)
              + ([0, 1, 0, 1] : List ℚ).getD (2 + 1) 0) / 2) * (1 / 2)) :=
  (smoothArray_endpoints_and_interior [0, 1, 0, 1] (1 / 2) (by norm_num) (by norm_num)
    (by decide)).2.1 2 (by decide) (by decide)

/-! ### Claim C4 -/

/-- C4 as stated fails: on `[255,0,0,0]` with `n = 4`, `s = 1` the code's
circular output has `1` at index 3 (the mirrored first element), while the
spec's ripple-weighted, 0.4-smoothed pipeline leaves `0` there. -/
theorem generateCircular_ne_spec_ripple :
    (generateCircular [255, 0, 0, 0] 4 1).getD 3 JSVal.nan = JSVal.num 1
      ∧ (shapeCircularSpec [255, 0, 0, 0] 4 1).getD 3 0 = 0
      ∧ (1 : ℚ) ≠ 0 := by
  refine ⟨by with_unfolding_all decide, ?_, by norm_num⟩
  have hws : windowSum [255, 0, 0, 0] (([255, 0, 0, 0] : List ℕ).length / 4) 3 = 0 := by
    decide
  have hlenraw : (shapeCircularSpecRaw [255, 0, 0, 0] 4 1).length = 4 := by
    rw [shapeCircularSpecRaw]
    simp
  rw [shapeCircularSpec, smoothSpec, if_neg (by norm_num), if_neg (by norm_num), hlenraw]
  rw [List.getD_eq_getElem _ _ (by simp), List.getElem_map, List.getElem_range,
    if_neg (by omega)]
  rw [shapeCircularSpecRaw, List.getD_eq_getElem _ _ (by simp), List.getElem_map,
    List.getElem_range, hws]
  norm_num

/-- C4 (amended): `generateCircular` applies no angular ripple weight and no
factor-0.4 smoothing; it is the `generateWaveform` array (windowed means,
clamped, smoothed with factor 0.5) with its second half mirrored: element
`j` equals waveform element `min j (n - 1 - j)`. -/
theorem generateCircular_is_mirrored_waveform (freq : List ℕ) (n : ℕ) (s : ℚ)
    (j : ℕ) (hj : j < n) :
    (generateCircular freq n s).getD j JSVal.nan
      = (generateWaveform freq n s).getD (min j (n - 1 - j)) JSVal.nan :=
  generateCircular_getD freq n s j hj

/-- Witness for C4 (amended) at `freq = [255,0,0,0]`, `n = 4`, `s = 1`,
`j = 3`. -/
theorem generateCircular_is_mirrored_waveform_witness :
    (generateCircular [255, 0, 0, 0] 4 1).getD 3 JSVal.nan
      = (generateWaveform [255, 0, 0, 0] 4 1).getD (min 3 (4 - 1 - 3)) JSVal.nan :=
  generateCircular_is_mirrored_waveform [255, 0, 0, 0] 4 1 3 (by decide)

/-! ### Claim C5 -/

/-- C5 as stated fails: the second initialization does error with
`GraphAlreadyConnected`, but it is not prevented by an idempotent
already-initialized guard — the second call constructs a second
`AudioContext` and invokes `createMediaElementSource` again (the call
counter rises from 1 to 2), so the error is raised by the underlying audio
API rather than avoided by construction. -/
theorem initAudioAnalyzer_no_guard_counterexample :
    (initAudioAnalyzer freshAudioState).1 = Except.ok ()
      ∧ (initAudioAnalyzer (initAudioAnalyzer freshAudioState).2).1
          = Except.error AudioError.GraphAlreadyConnected
      ∧ (initAudioAnalyzer (initAudioAnalyzer freshAudioState).2).2.sourceNodeCalls = 2
      ∧ (initAudioAnalyzer (initAudioAnalyzer freshAudioState).2).2.contextsCreated = 2
      ∧ ¬ (initAudioAnalyzer (initAudioAnalyzer freshAudioState).2).2.sourceNodeCalls
            = (initAudioAnalyzer freshAudioState).2.sourceNodeCalls := by
  refine ⟨rfl, rfl, rfl, rfl, ?_⟩
  decide

/-- C5 (amended): re-initializing on a media element that already carries a
source node fails with `GraphAlreadyConnected`, raised by the underlying
`createMediaElementSource` call: the attempt first constructs another
`AudioContext` and invokes the audio API again, since the code has no
already-initialized check. -/
theorem initAudioAnalyzer_second_call_api_throws (st : AudioSetupState)
    (h : st.elementHasSource = true) :
    (initAudioAnalyzer st).1 = Except.error AudioError.GraphAlreadyConnected
      ∧ (initAudioAnalyzer st).2.sourceNodeCalls = st.sourceNodeCalls + 1
      ∧ (initAudioAnalyzer st).2.contextsCreated = st.contextsCreated + 1 := by
  simp [initAudioAnalyzer, createMediaElementSource, h]

/-- Witness for C5 (amended) at a state with a connected source node. -/
theorem initAudioAnalyzer_second_call_api_throws_witness :
    (⟨true, 1, 1, true⟩ : AudioSetupState).elementHasSource = true
      ∧ ((initAudioAnalyzer ⟨true, 1, 1, true⟩).1
            = Except.error AudioError.GraphAlreadyConnected
          ∧ (initAudioAnalyzer ⟨true, 1, 1, true⟩).2.sourceNodeCalls = 1 + 1
          ∧ (initAudioAnalyzer ⟨true, 1, 1, true⟩).2.contextsCreated = 1 + 1) :=
  ⟨rfl, initAudioAnalyzer_second_call_api_throws ⟨true, 1, 1, true⟩ rfl⟩

/-! ### Claim C6 -/

/-- C6: on an empty frequency buffer, `generateWaveform` returns an array of
length `n` whose every element is zero, for every `n ≥ 1`. -/
theorem generateWaveform_empty_buffer_zeros (n : ℕ) (s : ℚ) (hn : 1 ≤ n) :
    (generateWaveform [] n s).length = n
      ∧ ∀ x ∈ generateWaveform [] n s, x = JSVal.num 0 := by
  refine ⟨generateWaveform_length [] n s, ?_⟩
  intro x hx
  rw [generateWaveform, if_pos (show ([] : List ℕ).length = 0 from rfl)] at hx
  exact List.eq_of_mem_replicate hx

/-- Witness for C6 at `n = 5`, `s = 2`. -/
theorem generateWaveform_empty_buffer_zeros_witness :
    (generateWaveform [] 5 2).length = 5
      ∧ (generateWaveform [] 5 2).getD 3 JSVal.nan = JSVal.num 0 :=
  ⟨(generateWaveform_empty_buffer_zeros 5 2 (by decide)).1,
   (generateWaveform_empty_buffer_zeros 5 2 (by decide)).2 _
     (by with_unfolding_all decide)⟩

/-! ### Claim C7 -/

/-- C7: `formatTime` returns `"00:00"` on NaN and on both infinities —
absorbing non-finite times as a zero display before any arithmetic —
returns `"01:05"` on 65, and returns `"00:00"` on 0. -/
theorem formatTime_values :
    formatTime JSVal.nan = "00:00" ∧ formatTime JSVal.inf = "00:00"
      ∧ formatTime JSVal.ninf = "00:00"
      ∧ formatTime (JSVal.num 65) = "01:05"
      ∧ formatTime (JSVal.num 0) = "00:00" := by
  refine ⟨rfl, rfl, rfl, ?_, ?_⟩ <;> with_unfolding_all decide

/-! ### Claim C8 -/

/-- C8: in wave mode, for every sample of a non-empty time buffer the
primary trace's y-coordinate is
`centerY + ((sample/128) - 1) * centerY * sensitivity * volume` and the
mirrored trace inverts the deviation's sign; the buffer is consumed raw. -/
theorem drawWaveVisualizer_trace_formula (data : List ℕ) (width height s vol : ℚ)
    (hne : data ≠ []) :
    ∀ i, i < data.length →
      ((drawWaveVisualizer data width height s vol).1.getD i (0, 0)).2
          = height / 2 + ((data.getD i 0 : ℚ) / 128 - 1) * (height / 2) * s * vol
        ∧ ((drawWaveVisualizer data width height s vol).2.getD i (0, 0)).2
          = height / 2 - ((data.getD i 0 : ℚ) / 128 - 1) * (height / 2) * s * vol := by
  intro i hi
  have hlen : ¬ data.length = 0 := by
    intro h
    exact hne (List.length_eq_zero.mp h)
  rw [drawWaveVisualizer, if_neg hlen]
  dsimp only
  constructor
  · rw [wavePrimaryAux_getD (height / 2) s vol (width / (data.length : ℚ)) data i hi 0]
  · rw [waveMirrorAux_getD (height / 2) s vol (width / (data.length : ℚ)) data i hi 0]

/-- Witness for C8 at `data = [128]` (a silence sample), canvas 10×2,
`s = 1`, `vol = 1`. -/
theorem drawWaveVisualizer_trace_formula_witness :
    ([128] : List ℕ) ≠ []
      ∧ (((drawWaveVisualizer [128] 10 2 1 1).1.getD 0 (0, 0)).2
            = 2 / 2 + ((([128] : List ℕ).getD 0 0 : ℚ) / 128 - 1) * (2 / 2) * 1 * 1
          ∧ ((drawWaveVisualizer [128] 10 2 1 1).2.getD 0 (0, 0)).2
            = 2 / 2 - ((([128] : List ℕ).getD 0 0 : ℚ) / 128 - 1) * (2 / 2) * 1 * 1) :=
  ⟨by decide, drawWaveVisualizer_trace_formula [128] 10 2 1 1 (by decide) 0 (by decide)⟩

/-! ### Claim C9 -/

/-- C9: on a non-empty buffer shorter than `n`, the window size
floor-divides to 0, the `0/0` division yields NaN, and every element of the
bar shaper's output is NaN rather than a value in `[0,1]`. -/
theorem generateWaveform_short_buffer_nan (freq : List ℕ) (n : ℕ) (s : ℚ)
    (h0 : 0 < freq.length) (hlt : freq.length < n) :
    freq.length / n = 0 ∧ ∀ x ∈ generateWaveform freq n s, x = JSVal.nan := by
  have hss : freq.length / n = 0 := Nat.div_eq_of_lt hlt
  refine ⟨hss, ?_⟩
  have hraw : ∀ x ∈ generateWaveformRaw freq n s, x = JSVal.nan := by
    intro x hx
    rcases List.mem_map.mp hx with ⟨i, _, rfl⟩
    rw [hss]
    exact barValue_nan freq i s
  intro x hx
  rw [generateWaveform, if_neg (by omega), smoothArray, if_neg (by norm_num),
    if_neg (by norm_num)] at hx
  exact foldl_smoothStep_all_nan _ _ _ hraw x hx

/-- Witness for C9 at `freq = [255]`, `n = 2`, `s = 1`. -/
theorem generateWaveform_short_buffer_nan_witness :
    0 < ([255] : List ℕ).length ∧ ([255] : List ℕ).length < 2
      ∧ ([255] : List ℕ).length / 2 = 0
      ∧ (generateWaveform [255] 2 1).getD 0 JSVal.nan = JSVal.nan :=
  ⟨by decide, by decide,
   (generateWaveform_short_buffer_nan [255] 2 1 (by decide) (by decide)).1,
   (generateWaveform_short_buffer_nan [255] 2 1 (by decide) (by decide)).2 _
     (by with_unfolding_all decide)⟩

/-! ### Claim C10 -/

/-- C10: the circular shaper's output is mirror-symmetric — for every index
`i` below half the output length, the element at `length - 1 - i` equals
the element at `i`. -/
theorem generateCircular_mirror_symmetric (freq : List ℕ) (n : ℕ) (s : ℚ)
    (hn : 1 ≤ n) :
    ∀ i, i < (generateCircular freq n s).length / 2 →
      (generateCircular freq n s).getD
          ((generateCircular freq n s).length - 1 - i) JSVal.nan
        = (generateCircular freq n s).getD i JSVal.nan := by
  intro i hi
  have hlen : (generateCircular freq n s).length = n := generateCircular_length freq n s
  rw [hlen] at hi ⊢
  rw [generateCircular_getD freq n s (n - 1 - i) (by omega),
    generateCircular_getD freq n s i (by omega)]
  congr 1
  omega

/-- Witness for C10 at `freq = [10,20,30,40]`, `n = 4`, `s = 1`, `i = 0`. -/
theorem generateCircular_mirror_symmetric_witness :
    0 < (generateCircular [10, 20, 30, 40] 4 1).length / 2
      ∧ (generateCircular [10, 20, 30, 40] 4 1).getD
            ((generateCircular [10, 20, 30, 40] 4 1).length - 1 - 0) JSVal.nan
          = (generateCircular [10, 20, 30, 40] 4 1).getD 0 JSVal.nan :=
  ⟨by with_unfolding_all decide,
   generateCircular_mirror_symmetric [10, 20, 30, 40] 4 1 (by decide) 0
     (by with_unfolding_all decide)⟩
